import Mathlib

/- Formal model of the schema-version and migration orchestration subsystem of
   the Quick-Invoice application (src-tauri/src/database/): version_manager.rs,
   migration_runner.rs, migration_trigger.rs, embedded_migrations.rs.
   Database and file-system effects are modelled by explicit state passing;
   a fallible operation returns an Except value paired with the state it leaves
   behind (the external store survives an error, a rolled-back transaction
   leaves it unchanged). -/

/-- Catalog entry (version_manager.rs, struct Migration). -/
structure Migration where
  version : Int
  name : String
  description : String
  sql_file : String
  checksum : String
  deriving DecidableEq

/-- Row of the database_migrations tracking table
    (version_manager.rs, struct AppliedMigration). -/
structure AppliedMigration where
  id : Int
  version : Int
  name : String
  description : Option String
  checksum : String
  applied_at : String
  execution_time_ms : Option Int
  deriving DecidableEq

/-- Abstract state of the SQLite database as seen by the subsystem:
    whether the database_migrations table exists, its rows (in insertion
    order; reads sort by version as the SQL does), whether any of the legacy
    business tables (customers, invoices, services, stores) exists, and the
    autoincrement counter for the tracking table's id column. -/
structure DbState where
  hasMigrationsTable : Bool
  rows : List AppliedMigration
  hasLegacyTables : Bool
  nextId : Int
  deriving DecidableEq

/-- version_manager.rs, struct DatabaseVersionInfo. -/
structure DatabaseVersionInfo where
  current_version : Int
  required_version : Int
  is_legacy : Bool
  needs_migration : Bool
  pending_migrations : List Migration
  applied_migrations : List AppliedMigration
  deriving DecidableEq

/-- version_manager.rs, enum MigrationStatus. -/
inductive MigrationStatus where
  | Current (version : Int)
  | RequiresUpgrade (current_version required_version : Int)
      (pending_migrations : List Migration)
  | RequiresConsent (info : DatabaseVersionInfo)
  deriving DecidableEq

/-- VersionManager::get_all_migrations (version_manager.rs): the static
    migration catalog. -/
def get_all_migrations : List Migration :=
  [ { version := 1
      name := "v001_initial_schema"
      description := "Initial database schema with core tables"
      sql_file := "v001_initial_schema.sql"
      checksum := "initial_schema_v1" },
    { version := 2
      name := "v002_gst_fixes"
      description := "GST calculation improvements and fixes"
      sql_file := "v002_gst_fixes.sql"
      checksum := "gst_fixes_v2" },
    { version := 3
      name := "v003_email_config"
      description := "Email configuration for automatic backups"
      sql_file := "v003_email_config.sql"
      checksum := "email_config_v3" } ]

/-- VersionManager::has_migrations_table. -/
def has_migrations_table (s : DbState) : Bool :=
  s.hasMigrationsTable

/-- VersionManager::create_migrations_table: CREATE TABLE IF NOT EXISTS;
    creating a previously absent table yields an empty table, an existing
    table (and its rows) is left untouched. -/
def create_migrations_table (s : DbState) : DbState :=
  if s.hasMigrationsTable then s
  else { s with hasMigrationsTable := true, rows := [] }

/-- Insertion step of the version sort used to model ORDER BY version. -/
def insertByVersion (a : AppliedMigration) :
    List AppliedMigration → List AppliedMigration
  | [] => [a]
  | b :: bs =>
      if a.version ≤ b.version then a :: b :: bs else b :: insertByVersion a bs

/-- Sort tracking-table rows by version (models ORDER BY version). -/
def sortByVersion : List AppliedMigration → List AppliedMigration
  | [] => []
  | a :: as => insertByVersion a (sortByVersion as)

/-- VersionManager::get_applied_migrations: empty when the tracking table does
    not exist, otherwise SELECT * FROM database_migrations ORDER BY version. -/
def get_applied_migrations (s : DbState) : List AppliedMigration :=
  if s.hasMigrationsTable then sortByVersion s.rows else []

/-- VersionManager::has_legacy_tables: any of customers, invoices, services,
    stores exists in sqlite_master. -/
def has_legacy_tables (s : DbState) : Bool :=
  s.hasLegacyTables

/-- VersionManager::get_current_version: no applied records means legacy probe
    (0 if legacy tables exist, otherwise -1); otherwise the maximum applied
    version (max().unwrap_or(0)). -/
def get_current_version (s : DbState) : Int :=
  let applied := get_applied_migrations s
  if applied.isEmpty then
    if has_legacy_tables s then 0 else -1
  else
    ((applied.map (fun m => m.version)).max?).getD 0

/-- VersionManager::detect_database_version, generalised over the catalog;
    the source always instantiates cat with get_all_migrations. -/
def detect_database_version (cat : List Migration) (s : DbState) :
    DatabaseVersionInfo :=
  let current_version := get_current_version s
  let required_version := ((cat.map (fun m => m.version)).max?).getD 0
  let applied_migrations := get_applied_migrations s
  let applied_versions := applied_migrations.map (fun m => m.version)
  let pending_migrations := cat.filter
    (fun m => !(applied_versions.contains m.version) &&
      decide (m.version > current_version))
  { current_version := current_version
    required_version := required_version
    is_legacy := current_version == 0
    needs_migration := decide (current_version < required_version)
    pending_migrations := pending_migrations
    applied_migrations := applied_migrations }

/-- VersionManager::check_migration_status. -/
def check_migration_status (cat : List Migration) (s : DbState) :
    MigrationStatus :=
  let info := detect_database_version cat s
  if !info.needs_migration then
    MigrationStatus.Current info.current_version
  else
    MigrationStatus.RequiresUpgrade info.current_version info.required_version
      info.pending_migrations

/-- VersionManager::is_migration_applied: false when the tracking table does
    not exist, otherwise a version lookup in database_migrations. -/
def is_migration_applied (s : DbState) (version : Int) : Bool :=
  if !s.hasMigrationsTable then false
  else (s.rows.map (fun r => r.version)).contains version

/-- Modelled from the spec: the SQL payload of catalog migration v1,
    embedded from migrations/v001_initial_schema.sql, a file that is not part
    of the sources available here.  The spec applies this migration
    successfully, so the payload is non-empty SQL text. -/
def V001_INITIAL_SCHEMA : String :=
  "-- v001 initial schema payload (embedded, non-empty)"

/-- Modelled from the spec: the SQL payload of catalog migration v2,
    embedded from migrations/v002_gst_fixes.sql (file not in the available
    sources); non-empty SQL text. -/
def V002_GST_FIXES : String :=
  "-- v002 gst fixes payload (embedded, non-empty)"

/-- Modelled from the spec: the SQL payload of catalog migration v3,
    embedded from migrations/v003_email_config.sql (file not in the available
    sources); non-empty SQL text. -/
def V003_EMAIL_CONFIG : String :=
  "-- v003 email config payload (embedded, non-empty)"

/-- embedded_migrations.rs, const V001_EMAIL_CONFIG_NEW (fallback payload,
    defined inline in the source; abridged to its header here, content is
    never inspected beyond non-emptiness). -/
def V001_EMAIL_CONFIG_NEW : String :=
  "-- Migration v001: Email Configuration"

/-- embedded_migrations.rs, const V002_TAG_SETTINGS_NEW (fallback payload,
    abridged to its header). -/
def V002_TAG_SETTINGS_NEW : String :=
  "-- Migration v002: Tag Settings"

/-- embedded_migrations.rs, const V003_ADDITIONAL_INDEXES (fallback payload,
    abridged to its header). -/
def V003_ADDITIONAL_INDEXES : String :=
  "-- Migration v003: Performance Indexes"

/-- embedded_migrations.rs, get_migration_sql: lookup of the embedded SQL
    payload by (version, sql_file). -/
def get_migration_sql (version : Int) (sql_file : String) : Option String :=
  if version = 1 ∧ sql_file = "v001_initial_schema.sql" then
    some V001_INITIAL_SCHEMA
  else if version = 2 ∧ sql_file = "v002_gst_fixes.sql" then
    some V002_GST_FIXES
  else if version = 3 ∧ sql_file = "v003_email_config.sql" then
    some V003_EMAIL_CONFIG
  else if version = 1 ∧ sql_file = "v001_email_config.sql" then
    some V001_EMAIL_CONFIG_NEW
  else if version = 2 ∧ sql_file = "v002_tag_settings.sql" then
    some V002_TAG_SETTINGS_NEW
  else if version = 3 ∧ sql_file = "v003_additional_indexes.sql" then
    some V003_ADDITIONAL_INDEXES
  else
    none

/-- Failure modes of the runner (migration_runner.rs). -/
inductive MigError where
  | sqlNotFound (version : Int) (name sql_file : String)
  | emptySql (name : String)
  | execFailed (version : Int) (name : String)
  | recordFailed
  deriving DecidableEq

/-- Environment for migration execution: the outcome of handing a migration's
    SQL to the engine (none = the engine rejected it, the transaction rolls
    back; some b = success, b is the resulting legacy-business-tables flag),
    plus the wall clock used for applied_at and the measured execution time. -/
structure SqlEnv where
  exec : Migration → Bool → Option Bool
  now : String
  execTimeMs : Int

/-- MigrationRunner::load_migration_sql: resolve the embedded payload; a
    missing resource is a fatal error naming the migration. -/
def load_migration_sql (m : Migration) : Except MigError String :=
  match get_migration_sql m.version m.sql_file with
  | some sql => Except.ok sql
  | none => Except.error (MigError.sqlNotFound m.version m.name m.sql_file)

/-- MigrationRunner::validate_migration_sql: SQL that is empty after trimming
    is a hard failure — sql.trim().is_empty() holds exactly when every
    character is whitespace, which is how it is stated here; the
    dangerous-keyword scan (DROP TABLE, DROP DATABASE, DELETE FROM) only logs
    a warning and never blocks, so it has no behavioural effect. -/
def validate_migration_sql (sql : String) (m : Migration) :
    Except MigError Unit :=
  if sql.data.all (fun c => c.isWhitespace) then
    Except.error (MigError.emptySql m.name)
  else Except.ok ()

/-- The tracking-table row inserted by
    MigrationRunner::record_migration_in_tx (applied_at takes the column
    default CURRENT_TIMESTAMP, id the autoincrement counter). -/
def mkAppliedRecord (env : SqlEnv) (m : Migration) (id : Int) :
    AppliedMigration :=
  { id := id
    version := m.version
    name := m.name
    description := some m.description
    checksum := m.checksum
    applied_at := env.now
    execution_time_ms := some env.execTimeMs }

/-- MigrationRunner::apply_migration: skip when already applied; load and
    validate the SQL; then, in one transaction, execute the SQL and insert the
    tracking row, committing both or rolling back (leaving the state
    unchanged) on any failure.  The INSERT fails when the tracking table does
    not exist. -/
def apply_migration (env : SqlEnv) (m : Migration) (s : DbState) :
    Except MigError Unit × DbState :=
  if is_migration_applied s m.version then (Except.ok (), s)
  else
    match load_migration_sql m with
    | Except.error e => (Except.error e, s)
    | Except.ok sql =>
      match validate_migration_sql sql m with
      | Except.error e => (Except.error e, s)
      | Except.ok _ =>
        match env.exec m s.hasLegacyTables with
        | none => (Except.error (MigError.execFailed m.version m.name), s)
        | some legacyAfter =>
          if s.hasMigrationsTable then
            (Except.ok (),
              { hasMigrationsTable := true
                rows := s.rows ++ [mkAppliedRecord env m s.nextId]
                hasLegacyTables := legacyAfter
                nextId := s.nextId + 1 })
          else (Except.error MigError.recordFailed, s)

/-- The loop body of MigrationRunner::apply_pending_migrations: apply each
    migration in list order, pushing it onto the applied list, stopping at
    and propagating the first failure. -/
def apply_migrations_loop (env : SqlEnv) :
    List Migration → DbState → Except MigError (List Migration) × DbState
  | [], s => (Except.ok [], s)
  | m :: rest, s =>
    match apply_migration env m s with
    | (Except.error e, s1) => (Except.error e, s1)
    | (Except.ok _, s1) =>
      match apply_migrations_loop env rest s1 with
      | (Except.ok applied, s2) => (Except.ok (m :: applied), s2)
      | (Except.error e, s2) => (Except.error e, s2)

/-- MigrationRunner::apply_pending_migrations: ensure the tracking table,
    detect the pending set, return early when it is empty, otherwise apply
    the pending migrations in list order (the catalog's order). -/
def apply_pending_migrations (cat : List Migration) (env : SqlEnv)
    (s : DbState) : Except MigError (List Migration) × DbState :=
  let s1 := create_migrations_table s
  let info := detect_database_version cat s1
  if info.pending_migrations.isEmpty then (Except.ok [], s1)
  else apply_migrations_loop env info.pending_migrations s1

/-- MigrationTriggerSystem::apply_migrations_with_consent: only with
    user_consent = true is MigrationRunner::apply_pending_migrations invoked;
    declining returns Ok(()) without touching the database. -/
def apply_migrations_with_consent (cat : List Migration) (env : SqlEnv)
    (user_consent : Bool) (s : DbState) : Except MigError Unit × DbState :=
  if !user_consent then (Except.ok (), s)
  else
    match apply_pending_migrations cat env s with
    | (Except.ok _, s1) => (Except.ok (), s1)
    | (Except.error e, s1) => (Except.error e, s1)

/-- migration_trigger.rs, enum MigrationTrigger. -/
inductive MigrationTrigger where
  | AppStartup
  | DatabaseRestore (backup_path : String)
  | DatabaseImport (import_path : String)
  | ManualRequest
  deriving DecidableEq

/-- migration_trigger.rs, struct MigrationCheckResult. -/
structure MigrationCheckResult where
  trigger : MigrationTrigger
  status : MigrationStatus
  backup_created : Option String
  deriving DecidableEq

/-- Whether a MigrationStatus is the RequiresUpgrade variant. -/
def isRequiresUpgrade : MigrationStatus → Bool
  | MigrationStatus.RequiresUpgrade _ _ _ => true
  | _ => false

/-- File system as an association list from absolute path to file content;
    writeList replaces the first entry for a key in place, or appends a new
    entry when the key is absent. -/
def writeList (p c : String) :
    List (String × String) → List (String × String)
  | [] => [(p, c)]
  | (q, d) :: rest =>
      if q = p then (p, c) :: rest else (q, d) :: writeList p c rest

/-- The modelled file system. -/
structure FileSys where
  files : List (String × String)
  deriving DecidableEq

/-- Write (create or overwrite) a file. -/
def FileSys.write (fs : FileSys) (p c : String) : FileSys :=
  { files := writeList p c fs.files }

/-- Read a file, none when absent. -/
def FileSys.read (fs : FileSys) (p : String) : Option String :=
  fs.files.lookup p

/-- Environment of BackupManager: the platform data directory
    (dirs::data_dir(), which may be unavailable) and the formatted UTC
    timestamp %Y%m%d_%H%M%S used in backup file names. -/
structure BackupEnv where
  dataDir : Option String
  nowStamp : String

/-- BackupManager::new: the backup directory. -/
def backup_dir (benv : BackupEnv) : String :=
  match benv.dataDir with
  | some d => d ++ "/UCLEAN/backups"
  | none => "./backups"

/-- BackupManager::get_database_path: fails when the data directory is
    unavailable. -/
def get_database_path (benv : BackupEnv) : Except String String :=
  match benv.dataDir with
  | some d => Except.ok (d ++ "/com.uclean.app/database.sqlite")
  | none => Except.error "Failed to get app data directory"

/-- BackupManager::create_backup: copy the live database file to
    backup_dir/(label)_(timestamp).sqlite; returns the new path.  Failure
    (data directory unavailable, or live database file missing) is surfaced
    and leaves the file system unchanged. -/
def create_backup (benv : BackupEnv) (pref : String) (fs : FileSys) :
    Except String String × FileSys :=
  let backup_path := backup_dir benv ++ "/" ++ pref ++ "_" ++
    benv.nowStamp ++ ".sqlite"
  match get_database_path benv with
  | Except.error e => (Except.error e, fs)
  | Except.ok dbp =>
    match fs.read dbp with
    | some content =>
        (Except.ok backup_path, fs.write backup_path content)
    | none =>
        (Except.error ("Failed to create backup at " ++ backup_path), fs)

/-- BackupManager::restore_backup: resolve the live database path, take a
    safety backup of the current state first, then copy the given backup over
    the live file.  Any failure is surfaced at that point. -/
def restore_backup (benv : BackupEnv) (backup_path : String) (fs : FileSys) :
    Except String Unit × FileSys :=
  match get_database_path benv with
  | Except.error e => (Except.error e, fs)
  | Except.ok dbp =>
    match create_backup benv "safety_before_restore" fs with
    | (Except.error e, fs1) => (Except.error e, fs1)
    | (Except.ok _safety, fs1) =>
      match fs1.read backup_path with
      | some content => (Except.ok (), fs1.write dbp content)
      | none =>
          (Except.error ("Failed to restore from " ++ backup_path), fs1)

/-- MigrationTriggerSystem::create_pre_migration_backup: backup label chosen
    by trigger kind. -/
def create_pre_migration_backup (benv : BackupEnv) (trig : MigrationTrigger)
    (fs : FileSys) : Except String String × FileSys :=
  let backup_name :=
    match trig with
    | MigrationTrigger.AppStartup => "pre_migration_startup"
    | MigrationTrigger.DatabaseRestore _ => "pre_migration_restore"
    | MigrationTrigger.DatabaseImport _ => "pre_migration_import"
    | MigrationTrigger.ManualRequest => "pre_migration_manual"
  create_backup benv backup_name fs

/-- MigrationTriggerSystem::check_and_prepare_migration: read the migration
    status; when it is RequiresUpgrade create a pre-migration backup (a backup
    failure propagates), otherwise no backup; return the check result.  The
    database itself is only read, never modified, and no migration is applied;
    the returned DbState is the untouched input state. -/
def check_and_prepare_migration (benv : BackupEnv) (trig : MigrationTrigger)
    (s : DbState) (fs : FileSys) :
    Except String MigrationCheckResult × (DbState × FileSys) :=
  let status := check_migration_status get_all_migrations s
  match isRequiresUpgrade status with
  | true =>
    match create_pre_migration_backup benv trig fs with
    | (Except.ok p, fs1) =>
        (Except.ok
          { trigger := trig, status := status, backup_created := some p },
          (s, fs1))
    | (Except.error e, fs1) => (Except.error e, (s, fs1))
  | false =>
      (Except.ok
        { trigger := trig, status := status, backup_created := none },
        (s, fs))

/- Helper lemmas about the model's list machinery. -/

/-- Inserting into a version-sorted list is a permutation of consing. -/
theorem insertByVersion_perm (a : AppliedMigration)
    (l : List AppliedMigration) : (insertByVersion a l).Perm (a :: l) := by
  induction l with
  | nil => simp [insertByVersion]
  | cons b bs ih =>
    simp only [insertByVersion]
    split
    · exact List.Perm.refl _
    · exact (ih.cons b).trans (List.Perm.swap a b bs)

/-- The version sort permutes its input. -/
theorem sortByVersion_perm (l : List AppliedMigration) :
    (sortByVersion l).Perm l := by
  induction l with
  | nil => simp [sortByVersion]
  | cons a as ih =>
    exact (insertByVersion_perm a (sortByVersion as)).trans (ih.cons a)

/-- When the tracking table exists, the read rows are a permutation of the
    stored rows. -/
theorem get_applied_perm (s : DbState) (h : s.hasMigrationsTable = true) :
    (get_applied_migrations s).Perm s.rows := by
  simpa [get_applied_migrations, h] using sortByVersion_perm s.rows

/-- The accumulator is below a max fold. -/
theorem le_foldl_max (acc : Int) (l : List Int) : acc ≤ l.foldl max acc := by
  induction l generalizing acc with
  | nil => exact le_refl acc
  | cons b bs ih =>
    exact le_trans (le_max_left acc b) (ih (max acc b))

/-- A max fold returns the accumulator or a list element. -/
theorem foldl_max_mem (l : List Int) (acc : Int) :
    l.foldl max acc = acc ∨ l.foldl max acc ∈ l := by
  induction l generalizing acc with
  | nil => exact Or.inl rfl
  | cons b bs ih =>
    simp only [List.foldl]
    rcases ih (max acc b) with h | h
    · rcases max_choice acc b with hc | hc
      · exact Or.inl (by rw [h, hc])
      · exact Or.inr (by rw [h, hc]; exact List.mem_cons_self b bs)
    · exact Or.inr (List.mem_cons_of_mem b h)

/-- Every list element is below a max fold. -/
theorem mem_le_foldl_max (l : List Int) (acc x : Int) (hx : x ∈ l) :
    x ≤ l.foldl max acc := by
  induction l generalizing acc with
  | nil => cases hx
  | cons b bs ih =>
    simp only [List.foldl]
    rcases List.mem_cons.mp hx with rfl | h
    · exact le_trans (le_max_right acc x) (le_foldl_max (max acc x) bs)
    · exact ih (max acc b) h

/-- max?.getD 0 of a non-empty list of integers is its maximum: a member that
    bounds every member. -/
theorem max?_getD_spec (l : List Int) (h : l ≠ []) :
    (l.max?.getD 0) ∈ l ∧ ∀ x ∈ l, x ≤ l.max?.getD 0 := by
  match l with
  | [] => exact absurd rfl h
  | a :: as =>
    have hm : (a :: as).max? = some (as.foldl max a) := rfl
    rw [hm, Option.getD_some]
    refine ⟨?_, ?_⟩
    · rcases foldl_max_mem as a with h1 | h1
      · rw [h1]; exact List.mem_cons_self a as
      · exact List.mem_cons_of_mem a h1
    · intro x hx
      rcases List.mem_cons.mp hx with rfl | hxs
      · exact le_foldl_max x as
      · exact mem_le_foldl_max as a x hxs

/-- contains on integer lists decides membership. -/
theorem contains_int_iff (l : List Int) (a : Int) :
    l.contains a = true ↔ a ∈ l := by
  simp

/-- Claim C3: get_current_version returns -1 on a database with no visible
    applied-migration records and no legacy business tables, 0 when there are
    no visible records but legacy tables exist, and otherwise the maximum
    version among the applied-migration records. -/
theorem get_current_version_classification (s : DbState) :
    (get_applied_migrations s = [] ∧ s.hasLegacyTables = false →
      get_current_version s = -1) ∧
    (get_applied_migrations s = [] ∧ s.hasLegacyTables = true →
      get_current_version s = 0) ∧
    (get_applied_migrations s ≠ [] →
      get_current_version s ∈
        (get_applied_migrations s).map (fun m => m.version) ∧
      ∀ v ∈ (get_applied_migrations s).map (fun m => m.version),
        v ≤ get_current_version s) := by
  refine ⟨?_, ?_, ?_⟩
  · rintro ⟨he, hl⟩
    simp [get_current_version, has_legacy_tables, he, hl]
  · rintro ⟨he, hl⟩
    simp [get_current_version, has_legacy_tables, he, hl]
  · intro hne
    have hmapne : (get_applied_migrations s).map (fun m => m.version) ≠ [] := by
      simpa using hne
    have hspec := max?_getD_spec _ hmapne
    have hie : (get_applied_migrations s).isEmpty = false := by
      simpa [List.isEmpty_iff] using hne
    constructor
    · simpa [get_current_version, hie] using hspec.1
    · simpa [get_current_version, hie] using hspec.2

/-- Concrete database state: tracking table with recorded versions 5 and 2
    (stored unordered to exercise the ORDER BY read). -/
def sTwoRows : DbState :=
  { hasMigrationsTable := true
    rows :=
      [ { id := 1, version := 5, name := "x", description := none,
          checksum := "c", applied_at := "t", execution_time_ms := none },
        { id := 2, version := 2, name := "y", description := none,
          checksum := "c", applied_at := "t", execution_time_ms := none } ]
    hasLegacyTables := false
    nextId := 3 }

/-- Witness for claim C3 at a concrete state with recorded versions 5 and 2:
    the current version is a recorded version bounding all recorded ones. -/
theorem get_current_version_classification_witness :
    get_current_version sTwoRows ∈
      (get_applied_migrations sTwoRows).map (fun m => m.version) ∧
    ∀ v ∈ (get_applied_migrations sTwoRows).map (fun m => m.version),
      v ≤ get_current_version sTwoRows :=
  (get_current_version_classification sTwoRows).2.2 (by decide)

/-- The pending list computed by detect_database_version is the stated
    filter of the catalog (definitional unfolding). -/
theorem pending_eq_filter (cat : List Migration) (s : DbState) :
    (detect_database_version cat s).pending_migrations =
      cat.filter (fun m =>
        !(((get_applied_migrations s).map (fun a => a.version)).contains
            m.version) &&
        decide (m.version > get_current_version s)) := rfl

/-- Membership in the pending list. -/
theorem mem_pending_iff (cat : List Migration) (s : DbState) (m : Migration) :
    m ∈ (detect_database_version cat s).pending_migrations ↔
      m ∈ cat ∧
      m.version ∉ (get_applied_migrations s).map (fun a => a.version) ∧
      get_current_version s < m.version := by
  rw [pending_eq_filter, List.mem_filter]
  simp [and_assoc]

/-- The pending list is a sublist of the catalog (kept in catalog order). -/
theorem pending_sublist (cat : List Migration) (s : DbState) :
    ((detect_database_version cat s).pending_migrations).Sublist cat := by
  rw [pending_eq_filter]
  exact List.filter_sublist cat

/-- Concrete database state with exactly migration v1 recorded. -/
def sOneApplied : DbState :=
  { hasMigrationsTable := true
    rows :=
      [ { id := 1, version := 1, name := "v001_initial_schema",
          description := some "Initial database schema with core tables",
          checksum := "initial_schema_v1", applied_at := "t",
          execution_time_ms := some 5 } ]
    hasLegacyTables := true
    nextId := 2 }

/-- Claim C7: detect_database_version computes pending_migrations as exactly
    the catalog entries whose version is both unapplied and strictly greater
    than current_version, in catalog order; a database with only v1 applied
    yields pending versions [2, 3] and needs_migration = true. -/
theorem detect_pending_characterization (s : DbState) :
    ((detect_database_version get_all_migrations s).pending_migrations).Sublist
      get_all_migrations ∧
    (∀ m : Migration,
      m ∈ (detect_database_version get_all_migrations s).pending_migrations ↔
        m ∈ get_all_migrations ∧
        m.version ∉ (get_applied_migrations s).map (fun a => a.version) ∧
        get_current_version s < m.version) ∧
    ((detect_database_version get_all_migrations
        sOneApplied).pending_migrations.map (fun m => m.version) = [2, 3] ∧
      (detect_database_version get_all_migrations
        sOneApplied).needs_migration = true) :=
  ⟨pending_sublist get_all_migrations s,
   fun m => mem_pending_iff get_all_migrations s m,
   by decide⟩

/-- Claim C10: for every catalog migration, the embedded SQL payload resolves
    (get_migration_sql returns some), so the resource-not-found branch of
    load_migration_sql is unreachable for catalog entries. -/
theorem catalog_sql_resolves :
    get_all_migrations.all
      (fun m => (get_migration_sql m.version m.sql_file).isSome &&
        (load_migration_sql m).toOption.isSome) = true := by decide

/-- Claim C4: apply_migrations_with_consent invokes apply_pending_migrations
    exactly when consent is true: with consent = false it returns Ok on the
    untouched database state; with consent = true its outcome (error and
    resulting database state) is exactly that of apply_pending_migrations. -/
theorem apply_with_consent_gates (cat : List Migration) (env : SqlEnv)
    (s : DbState) :
    apply_migrations_with_consent cat env false s = (Except.ok (), s) ∧
    apply_migrations_with_consent cat env true s =
      ((apply_pending_migrations cat env s).1.map (fun _ => ()),
        (apply_pending_migrations cat env s).2) := by
  constructor
  · simp [apply_migrations_with_consent]
  · cases h : apply_pending_migrations cat env s with
    | mk r s1 =>
      cases r <;> simp [apply_migrations_with_consent, h, Except.map]

/-- Case analysis of check_and_prepare_migration: no backup and an untouched
    state when no upgrade is required; with an upgrade required, the outcome
    of the pre-migration backup decides the outcome of the whole call. -/
theorem check_and_prepare_cases (benv : BackupEnv) (trig : MigrationTrigger)
    (s : DbState) (fs : FileSys) :
    (isRequiresUpgrade (check_migration_status get_all_migrations s) = false →
      check_and_prepare_migration benv trig s fs =
        (Except.ok
          { trigger := trig
            status := check_migration_status get_all_migrations s
            backup_created := none }, (s, fs))) ∧
    (isRequiresUpgrade (check_migration_status get_all_migrations s) = true →
      (∀ p fs1, create_pre_migration_backup benv trig fs =
          (Except.ok p, fs1) →
        check_and_prepare_migration benv trig s fs =
          (Except.ok
            { trigger := trig
              status := check_migration_status get_all_migrations s
              backup_created := some p }, (s, fs1))) ∧
      (∀ e fs1, create_pre_migration_backup benv trig fs =
          (Except.error e, fs1) →
        check_and_prepare_migration benv trig s fs =
          (Except.error e, (s, fs1)))) := by
  refine ⟨?_, fun hup => ⟨?_, ?_⟩⟩
  · intro hno
    simp [check_and_prepare_migration, hno]
  · intro p fs1 hok
    simp [check_and_prepare_migration, hup, hok]
  · intro e fs1 herr
    simp [check_and_prepare_migration, hup, herr]

/-- The status attached to a successful check result is the detected one. -/
theorem check_and_prepare_ok_status (benv : BackupEnv)
    (trig : MigrationTrigger) (s : DbState) (fs : FileSys)
    (r : MigrationCheckResult) (s2 : DbState) (fs2 : FileSys)
    (h : check_and_prepare_migration benv trig s fs =
      (Except.ok r, (s2, fs2))) :
    r.status = check_migration_status get_all_migrations s := by
  cases hup : isRequiresUpgrade (check_migration_status get_all_migrations s)
  · have heq := (check_and_prepare_cases benv trig s fs).1 hup
    have h2 := heq.symm.trans h
    simp only [Prod.mk.injEq, Except.ok.injEq] at h2
    obtain ⟨h1, h3, h4⟩ := h2
    subst h1
    rfl
  · cases hb : create_pre_migration_backup benv trig fs with
    | mk res fs1 =>
      cases res with
      | ok p =>
        have heq := ((check_and_prepare_cases benv trig s fs).2 hup).1 p fs1
          hb
        have h2 := heq.symm.trans h
        simp only [Prod.mk.injEq, Except.ok.injEq] at h2
        obtain ⟨h1, h3, h4⟩ := h2
        subst h1
        rfl
      | error e =>
        have heq := ((check_and_prepare_cases benv trig s fs).2 hup).2 e fs1
          hb
        have h2 := heq.symm.trans h
        simp at h2

/-- Claim C2: check_and_prepare_migration leaves the database untouched
    (applies no migration), reports the detected status and the trigger, and
    creates a pre-migration backup — attaching its path to the result —
    exactly when the detected status is RequiresUpgrade.  The function takes
    no consent at all, so the backup precedes any consent request. -/
theorem check_and_prepare_backup_iff (benv : BackupEnv)
    (trig : MigrationTrigger) (s : DbState) (fs : FileSys)
    (r : MigrationCheckResult) (s2 : DbState) (fs2 : FileSys)
    (h : check_and_prepare_migration benv trig s fs =
      (Except.ok r, (s2, fs2))) :
    s2 = s ∧
    r.trigger = trig ∧
    r.status = check_migration_status get_all_migrations s ∧
    r.backup_created.isSome =
      isRequiresUpgrade (check_migration_status get_all_migrations s) ∧
    (∀ p, r.backup_created = some p →
      create_pre_migration_backup benv trig fs = (Except.ok p, fs2)) := by
  cases hup : isRequiresUpgrade (check_migration_status get_all_migrations s)
  · have heq := (check_and_prepare_cases benv trig s fs).1 hup
    have h2 := heq.symm.trans h
    simp only [Prod.mk.injEq, Except.ok.injEq] at h2
    obtain ⟨h1, hs, hfs⟩ := h2
    subst h1
    refine ⟨hs.symm, rfl, rfl, by simp [hup], ?_⟩
    intro p hp
    simp at hp
  · cases hb : create_pre_migration_backup benv trig fs with
    | mk res fs1 =>
      cases res with
      | ok p =>
        have heq := ((check_and_prepare_cases benv trig s fs).2 hup).1 p fs1 hb
        have h2 := heq.symm.trans h
        simp only [Prod.mk.injEq, Except.ok.injEq] at h2
        obtain ⟨h1, hs, hfs⟩ := h2
        subst h1
        refine ⟨hs.symm, rfl, rfl, by simp [hup], ?_⟩
        intro q hq
        obtain rfl : p = q := by simpa using hq
        rw [hfs]
      | error e =>
        have heq := ((check_and_prepare_cases benv trig s fs).2 hup).2 e fs1 hb
        have h2 := heq.symm.trans h
        simp [Prod.ext_iff] at h2

/-- Claim C9: when an upgrade is required and the pre-migration backup fails,
    check_and_prepare_migration fails closed: the backup error is propagated,
    no MigrationCheckResult is produced, the database state is untouched (no
    migration is applied) and the file system is left as the failed backup
    left it. -/
theorem check_and_prepare_backup_failure (benv : BackupEnv)
    (trig : MigrationTrigger) (s : DbState) (fs : FileSys) (e : String)
    (fs1 : FileSys)
    (hup : isRequiresUpgrade (check_migration_status get_all_migrations s) =
      true)
    (hfail : create_pre_migration_backup benv trig fs =
      (Except.error e, fs1)) :
    check_and_prepare_migration benv trig s fs =
      (Except.error e, (s, fs1)) :=
  ((check_and_prepare_cases benv trig s fs).2 hup).2 e fs1 hfail

/-- Claim C8: check_migration_status only ever returns the Current or the
    RequiresUpgrade variant, and so does the status field of every successful
    check_and_prepare_migration result; the RequiresConsent variant is never
    produced. -/
theorem check_migration_status_variants :
    (∀ (cat : List Migration) (s : DbState),
      (∃ v, check_migration_status cat s = MigrationStatus.Current v) ∨
      (∃ cv rv pend, check_migration_status cat s =
        MigrationStatus.RequiresUpgrade cv rv pend)) ∧
    (∀ (benv : BackupEnv) (trig : MigrationTrigger) (s : DbState)
        (fs : FileSys) (r : MigrationCheckResult) (s2 : DbState)
        (fs2 : FileSys),
      check_and_prepare_migration benv trig s fs =
        (Except.ok r, (s2, fs2)) →
      (∃ v, r.status = MigrationStatus.Current v) ∨
      (∃ cv rv pend, r.status =
        MigrationStatus.RequiresUpgrade cv rv pend)) := by
  have hmain : ∀ (cat : List Migration) (s : DbState),
      (∃ v, check_migration_status cat s = MigrationStatus.Current v) ∨
      (∃ cv rv pend, check_migration_status cat s =
        MigrationStatus.RequiresUpgrade cv rv pend) := by
    intro cat s
    cases hn : (detect_database_version cat s).needs_migration
    · exact Or.inl ⟨(detect_database_version cat s).current_version,
        by simp [check_migration_status, hn]⟩
    · exact Or.inr ⟨(detect_database_version cat s).current_version,
        (detect_database_version cat s).required_version,
        (detect_database_version cat s).pending_migrations,
        by simp [check_migration_status, hn]⟩
  refine ⟨hmain, ?_⟩
  intro benv trig s fs r s2 fs2 h
  have hst := check_and_prepare_ok_status benv trig s fs r s2 fs2 h
  rw [hst]
  exact hmain get_all_migrations s

/-- Writing a path makes it readable with the written content. -/
theorem lookup_writeList_self (l : List (String × String)) (p c : String) :
    (writeList p c l).lookup p = some c := by
  induction l with
  | nil => simp [writeList, List.lookup]
  | cons e rest ih =>
    obtain ⟨q, d⟩ := e
    by_cases hq : q = p
    · subst hq
      simp [writeList, List.lookup]
    · simp [writeList, hq, List.lookup, beq_eq_false_iff_ne.mpr (Ne.symm hq),
        ih]

/-- Writing one path does not change reads of another. -/
theorem lookup_writeList_ne (l : List (String × String)) (p c a : String)
    (h : a ≠ p) : (writeList p c l).lookup a = l.lookup a := by
  induction l with
  | nil => simp [writeList, List.lookup, beq_eq_false_iff_ne.mpr h]
  | cons e rest ih =>
    obtain ⟨q, d⟩ := e
    by_cases hq : q = p
    · subst hq
      simp [writeList, List.lookup, beq_eq_false_iff_ne.mpr h]
    · by_cases ha : a = q
      · subst ha
        simp [writeList, hq, List.lookup]
      · simp [writeList, hq, List.lookup,
          beq_eq_false_iff_ne.mpr ha, ih]

/-- Writing grows the file list by one entry exactly when the path was
    absent. -/
theorem length_writeList (l : List (String × String)) (p c : String) :
    (writeList p c l).length =
      if (l.lookup p).isSome then l.length else l.length + 1 := by
  induction l with
  | nil => simp [writeList, List.lookup]
  | cons e rest ih =>
    obtain ⟨q, d⟩ := e
    by_cases hq : q = p
    · subst hq
      simp [writeList, List.lookup]
    · have hl : List.lookup p ((q, d) :: rest) = List.lookup p rest := by
        simp [List.lookup, beq_eq_false_iff_ne.mpr (Ne.symm hq)]
      rw [hl]
      simp only [writeList, if_neg hq, List.length_cons, ih]
      by_cases hr : (rest.lookup p).isSome <;> simp [hr]

/-- Backup environment fixture: data directory available, clock frozen at one
    second. -/
def benvW : BackupEnv :=
  { dataDir := some "data", nowStamp := "20260101_000000" }

/-- File system holding the live database, one backup to restore from, and a
    stale file already occupying the safety-backup path of the current
    second (a same-second timestamp collision). -/
def fsCollision : FileSys :=
  { files :=
      [ ("data/com.uclean.app/database.sqlite", "live"),
        ("data/UCLEAN/backups/b1.sqlite", "old"),
        ("data/UCLEAN/backups/safety_before_restore_20260101_000000.sqlite",
          "stale") ] }

/-- Counterexample to claim C6 as stated: when a file already occupies the
    generated safety-backup path (two restores within the same second), the
    safety copy overwrites that file in place; the restore succeeds but the
    number of files on disk is unchanged, so the restore produces zero — not
    exactly one — additional safety backup files. -/
theorem restore_backup_collision_counterexample :
    (restore_backup benvW "data/UCLEAN/backups/b1.sqlite" fsCollision).1 =
      Except.ok () ∧
    ((restore_backup benvW "data/UCLEAN/backups/b1.sqlite"
        fsCollision).2).files.length = fsCollision.files.length ∧
    fsCollision.files.length = 3 :=
  ⟨rfl, rfl, rfl⟩

/-- Claim C6 (amended): restore_backup first copies the current live database
    content to the generated safety-backup path and only then copies the given
    backup over the live database file; when the generated safety path is not
    already occupied (no same-second collision), the restore succeeds and
    produces exactly one additional file — the safety backup, holding the
    pre-restore live content — while the live file ends up with the restored
    content.  (On a collision the existing file is overwritten in place and no
    additional file results; see the counterexample.) -/
theorem restore_backup_safety_spec (benv : BackupEnv) (fs : FileSys)
    (src d c b : String)
    (hd : benv.dataDir = some d)
    (hdb : fs.read (d ++ "/com.uclean.app/database.sqlite") = some c)
    (hsafety : fs.read (backup_dir benv ++ "/" ++ "safety_before_restore" ++
      "_" ++ benv.nowStamp ++ ".sqlite") = none)
    (hsrc : fs.read src = some b) :
    ∃ fs' : FileSys,
      restore_backup benv src fs = (Except.ok (), fs') ∧
      fs'.files.length = fs.files.length + 1 ∧
      fs'.read (backup_dir benv ++ "/" ++ "safety_before_restore" ++ "_" ++
        benv.nowStamp ++ ".sqlite") = some c ∧
      fs'.read (d ++ "/com.uclean.app/database.sqlite") = some b := by
  set sp := backup_dir benv ++ "/" ++ "safety_before_restore" ++ "_" ++
    benv.nowStamp ++ ".sqlite" with hsp
  set dbp := d ++ "/com.uclean.app/database.sqlite" with hdbp
  have hne_src_sp : src ≠ sp := by
    intro he
    rw [he, hsafety] at hsrc
    exact Option.noConfusion hsrc
  have hne_db_sp : dbp ≠ sp := by
    intro he
    rw [he, hsafety] at hdb
    exact Option.noConfusion hdb
  have hcb : create_backup benv "safety_before_restore" fs =
      (Except.ok sp, fs.write sp c) := by
    simp only [create_backup, get_database_path, hd]
    rw [← hdbp, ← hsp, hdb]
  have h1 : (fs.write sp c).read src = some b := by
    simpa [FileSys.read, FileSys.write,
      lookup_writeList_ne fs.files sp c src hne_src_sp] using hsrc
  refine ⟨(fs.write sp c).write dbp b, ?_, ?_, ?_, ?_⟩
  · simp only [restore_backup, get_database_path, hd]
    rw [← hdbp, hcb]
    simp [h1]
  · have hlen1 : (fs.write sp c).files.length = fs.files.length + 1 := by
      have h3 := length_writeList fs.files sp c
      rw [show (fs.files.lookup sp).isSome = false by
        simpa [FileSys.read] using congrArg Option.isSome hsafety] at h3
      simpa [FileSys.write] using h3
    have hsome : ((fs.write sp c).files.lookup dbp).isSome = true := by
      have h5 : (fs.write sp c).files.lookup dbp = some c := by
        simpa [FileSys.read, FileSys.write,
          lookup_writeList_ne fs.files sp c dbp hne_db_sp] using hdb
      simp [h5]
    have h2 : ((fs.write sp c).write dbp b).files.length =
        (fs.write sp c).files.length := by
      have h3 := length_writeList (fs.write sp c).files dbp b
      rw [hsome] at h3
      simpa [FileSys.write] using h3
    rw [h2, hlen1]
  · have h4 : ((fs.write sp c).write dbp b).read sp =
        (fs.write sp c).read sp := by
      simp only [FileSys.read, FileSys.write]
      exact lookup_writeList_ne (writeList sp c fs.files) dbp b sp
        (Ne.symm hne_db_sp)
    rw [h4]
    simp [FileSys.read, FileSys.write, lookup_writeList_self]
  · simp [FileSys.read, FileSys.write, lookup_writeList_self]

/-- An already-applied migration is skipped. -/
theorem apply_migration_already_applied (env : SqlEnv) (m : Migration)
    (s : DbState) (h : is_migration_applied s m.version = true) :
    apply_migration env m s = (Except.ok (), s) := by
  simp [apply_migration, h]

/-- A failing apply_migration leaves the database state unchanged (the
    transaction rolls back). -/
theorem apply_migration_error_state (env : SqlEnv) (m : Migration)
    (s : DbState) (e : MigError) (s' : DbState)
    (h : apply_migration env m s = (Except.error e, s')) : s' = s := by
  unfold apply_migration at h
  split at h
  · simp at h
  · split at h
    · simp only [Prod.mk.injEq] at h
      exact h.2.symm
    · split at h
      · simp only [Prod.mk.injEq] at h
        exact h.2.symm
      · split at h
        · simp only [Prod.mk.injEq] at h
          exact h.2.symm
        · split at h
          · simp at h
          · simp only [Prod.mk.injEq] at h
            exact h.2.symm

/-- A successful apply_migration of a not-yet-applied migration appends
    exactly its tracking row; the tracking table must exist and persists. -/
theorem apply_migration_ok_state (env : SqlEnv) (m : Migration) (s : DbState)
    (u : Unit) (s' : DbState)
    (hna : is_migration_applied s m.version = false)
    (h : apply_migration env m s = (Except.ok u, s')) :
    s.hasMigrationsTable = true ∧
    s'.hasMigrationsTable = true ∧
    s'.rows = s.rows ++ [mkAppliedRecord env m s.nextId] ∧
    s'.nextId = s.nextId + 1 := by
  unfold apply_migration at h
  rw [hna] at h
  simp only [Bool.false_eq_true, if_false] at h
  split at h
  · simp at h
  · split at h
    · simp at h
    · split at h
      · simp at h
      · split at h
        · rename_i htbl
          simp only [Prod.mk.injEq, Except.ok.injEq] at h
          refine ⟨htbl, ?_, ?_, ?_⟩ <;> rw [← h.2]
        · simp at h

/-- A successful loop run returns exactly the list it was given. -/
theorem apply_migrations_loop_ok_list (env : SqlEnv) :
    ∀ (ms : List Migration) (s : DbState) (l : List Migration) (s' : DbState),
    apply_migrations_loop env ms s = (Except.ok l, s') → l = ms := by
  intro ms
  induction ms with
  | nil =>
    intro s l s' h
    simp only [apply_migrations_loop, Prod.mk.injEq, Except.ok.injEq] at h
    exact h.1.symm
  | cons m rest ih =>
    intro s l s' h
    simp only [apply_migrations_loop] at h
    split at h
    · simp at h
    · split at h
      · rename_i applied s2 heq2
        simp only [Prod.mk.injEq, Except.ok.injEq] at h
        rw [← h.1, ih _ _ _ heq2]
      · simp at h

/-- A failing loop run decomposes the list into a successfully applied
    prefix, the failing migration, and an unattempted suffix; the final state
    is the state in which the failing migration failed (unchanged by the
    failure). -/
theorem apply_migrations_loop_err (env : SqlEnv) :
    ∀ (ms : List Migration) (s : DbState) (e : MigError) (s' : DbState),
    apply_migrations_loop env ms s = (Except.error e, s') →
    ∃ p mfail suf,
      ms = p ++ mfail :: suf ∧
      apply_migrations_loop env p s = (Except.ok p, s') ∧
      apply_migration env mfail s' = (Except.error e, s') := by
  intro ms
  induction ms with
  | nil =>
    intro s e s' h
    simp [apply_migrations_loop] at h
  | cons m rest ih =>
    intro s e s' h
    simp only [apply_migrations_loop] at h
    split at h
    · rename_i e1 s1 heq
      simp only [Prod.mk.injEq] at h
      obtain ⟨he, hs⟩ := h
      have hee : e1 = e := Except.error.inj he
      have hs1 : s1 = s := apply_migration_error_state env m s e1 s1 heq
      have hss : s' = s := hs.symm.trans hs1
      rw [hs1, hee] at heq
      have hnil : apply_migrations_loop env [] s = (Except.ok [], s) := rfl
      refine ⟨[], m, rest, rfl, ?_, ?_⟩
      · rw [hss]
        exact hnil
      · rw [hss]
        exact heq
    · rename_i u s1 heq
      split at h
      · simp at h
      · rename_i e2 s2 heq2
        simp only [Prod.mk.injEq] at h
        obtain ⟨he, hs⟩ := h
        have hee : e2 = e := Except.error.inj he
        obtain ⟨p, mfail, suf, hsplit, hloop, hfail⟩ :=
          ih s1 e2 s2 heq2
        refine ⟨m :: p, mfail, suf, by simp [hsplit], ?_, ?_⟩
        · simp only [apply_migrations_loop, heq, hloop, ← hs]
        · rw [← hs, ← hee]
          exact hfail
      
/-- A successful loop run over pairwise-fresh migrations records exactly
    their versions, in order, after the existing rows; the tracking table
    persists. -/
theorem apply_migrations_loop_evolution (env : SqlEnv) :
    ∀ (ms : List Migration) (s : DbState) (l : List Migration) (s' : DbState),
    apply_migrations_loop env ms s = (Except.ok l, s') →
    s.hasMigrationsTable = true →
    (∀ m ∈ ms, ((s.rows.map (fun r => r.version)).contains m.version)
      = false) →
    (ms.map (fun m => m.version)).Nodup →
    s'.hasMigrationsTable = true ∧
    s'.rows.map (fun r => r.version) =
      s.rows.map (fun r => r.version) ++ ms.map (fun m => m.version) := by
  intro ms
  induction ms with
  | nil =>
    intro s l s' h htbl _ _
    simp only [apply_migrations_loop, Prod.mk.injEq] at h
    rw [← h.2]
    exact ⟨htbl, by simp⟩
  | cons m rest ih =>
    intro s l s' h htbl hfresh hnodup
    have hna : is_migration_applied s m.version = false := by
      simp only [is_migration_applied, htbl, Bool.not_true, Bool.false_eq_true,
        if_false]
      exact hfresh m (List.mem_cons_self m rest)
    simp only [apply_migrations_loop] at h
    split at h
    · simp at h
    · rename_i u s1 heq
      split at h
      · rename_i applied s2 heq2
        simp only [Prod.mk.injEq, Except.ok.injEq] at h
        obtain ⟨hl, hs⟩ := h
        obtain ⟨htbl0, htbl1, hrows1, _⟩ :=
          apply_migration_ok_state env m s u s1 hna heq
        have hver1 : s1.rows.map (fun r => r.version) =
            s.rows.map (fun r => r.version) ++ [m.version] := by
          simp [hrows1, mkAppliedRecord]
        have hnodup' := hnodup
        simp only [List.map_cons, List.nodup_cons] at hnodup'
        have hfresh1 : ∀ m' ∈ rest,
            ((s1.rows.map (fun r => r.version)).contains m'.version)
              = false := by
          intro m' hm'
          have hold' : m'.version ∉ s.rows.map (fun r => r.version) := by
            simpa using hfresh m' (List.mem_cons_of_mem m hm')
          have hne : m'.version ≠ m.version := fun hcontra =>
            hnodup'.1
              (hcontra ▸ List.mem_map_of_mem (fun x => x.version) hm')
          rw [hver1]
          simp [List.mem_append, hold', hne]
        have hnodup1 : (rest.map (fun m => m.version)).Nodup := hnodup'.2
        obtain ⟨htbl2, hver2⟩ := ih s1 applied s2 heq2 htbl1 hfresh1 hnodup1
        rw [← hs]
        refine ⟨htbl2, ?_⟩
        rw [hver2, hver1]
        simp
      · simp at h

/-- The pending list apply_pending_migrations works from: detection after
    ensuring the tracking table exists. -/
def pendingOf (cat : List Migration) (s : DbState) : List Migration :=
  (detect_database_version cat (create_migrations_table s)).pending_migrations

/-- create_migrations_table always leaves the tracking table existing. -/
theorem create_migrations_table_table (s : DbState) :
    (create_migrations_table s).hasMigrationsTable = true := by
  unfold create_migrations_table
  split
  · assumption
  · rfl

/-- create_migrations_table is the identity once the table exists. -/
theorem create_migrations_table_id (s : DbState)
    (h : s.hasMigrationsTable = true) : create_migrations_table s = s := by
  simp [create_migrations_table, h]

/-- Pending migrations are not yet recorded in the tracking table. -/
theorem pending_fresh (cat : List Migration) (s : DbState)
    (h : s.hasMigrationsTable = true) :
    ∀ m ∈ (detect_database_version cat s).pending_migrations,
      ((s.rows.map (fun r => r.version)).contains m.version) = false := by
  intro m hm
  have h2 := (mem_pending_iff cat s m).mp hm
  have hperm := (get_applied_perm s h).map (fun a => a.version)
  have h4 : m.version ∉ s.rows.map (fun r => r.version) := fun hmem =>
    h2.2.1 (hperm.mem_iff.mpr hmem)
  simpa using h4

/-- Claim C1 (amended): apply_pending_migrations works through the pending
    list in strictly ascending version order; on a failure it stops (no
    migration with a higher version is attempted), propagates the failing
    migration's error as the call's result — the list of migrations that
    succeeded before the failure is NOT returned — while the successful
    prefix remains recorded in the tracking table and the failing migration
    and everything after it stay unrecorded. -/
theorem apply_pending_migrations_failure_spec (env : SqlEnv) (s : DbState) :
    List.Pairwise (fun a b : Migration => a.version < b.version)
      (pendingOf get_all_migrations s) ∧
    ∀ e s', apply_pending_migrations get_all_migrations env s =
        (Except.error e, s') →
      ∃ p mfail suf,
        pendingOf get_all_migrations s = p ++ mfail :: suf ∧
        apply_migration env mfail s' = (Except.error e, s') ∧
        (∀ a ∈ p, is_migration_applied s' a.version = true) ∧
        (∀ b ∈ mfail :: suf, is_migration_applied s' b.version = false) := by
  have hcat : List.Pairwise (fun a b : Migration => a.version < b.version)
      get_all_migrations := by decide
  have hpw : List.Pairwise (fun a b : Migration => a.version < b.version)
      (pendingOf get_all_migrations s) :=
    hcat.sublist (pending_sublist get_all_migrations
      (create_migrations_table s))
  refine ⟨hpw, ?_⟩
  intro e s' h
  have hnodupPend :
      ((pendingOf get_all_migrations s).map (fun m => m.version)).Nodup :=
    (List.pairwise_map.mpr hpw).imp (fun hlt => ne_of_lt hlt)
  have htbl1 : (create_migrations_table s).hasMigrationsTable = true :=
    create_migrations_table_table s
  have hfreshAll : ∀ m ∈ pendingOf get_all_migrations s,
      (((create_migrations_table s).rows.map (fun r => r.version)).contains
        m.version) = false :=
    pending_fresh get_all_migrations (create_migrations_table s) htbl1
  simp only [apply_pending_migrations] at h
  split at h
  · simp at h
  · obtain ⟨p, mfail, suf, hsplit, hloop, hfail⟩ :=
      apply_migrations_loop_err env _ _ _ _ h
    have hsplit' : pendingOf get_all_migrations s = p ++ mfail :: suf :=
      hsplit
    have hnodupApp := hnodupPend
    rw [hsplit', List.map_append] at hnodupApp
    obtain ⟨hndP, hndS, hdisj⟩ := List.nodup_append.mp hnodupApp
    have hfreshP : ∀ m ∈ p,
        (((create_migrations_table s).rows.map (fun r => r.version)).contains
          m.version) = false := by
      intro m hm
      refine hfreshAll m ?_
      rw [hsplit']
      exact List.mem_append_left _ hm
    obtain ⟨htblMid, hverMid⟩ :=
      apply_migrations_loop_evolution env p (create_migrations_table s) p s'
        hloop htbl1 hfreshP hndP
    refine ⟨p, mfail, suf, hsplit', hfail, ?_, ?_⟩
    · intro a ha
      have hmem : a.version ∈ s'.rows.map (fun r => r.version) := by
        rw [hverMid]
        exact List.mem_append_right _
          (List.mem_map_of_mem (fun m => m.version) ha)
      simp [is_migration_applied, htblMid, hmem]
    · intro b hb
      have hbp : b ∈ pendingOf get_all_migrations s := by
        rw [hsplit']
        exact List.mem_append_right _ hb
      have hb1 : b.version ∉
          (create_migrations_table s).rows.map (fun r => r.version) := by
        simpa using hfreshAll b hbp
      have hbr : b.version ∈ (mfail :: suf).map (fun m => m.version) :=
        List.mem_map_of_mem (fun m => m.version) hb
      have hb2 : b.version ∉ p.map (fun m => m.version) := fun hmem =>
        hdisj hmem hbr
      have hmem : b.version ∉ s'.rows.map (fun r => r.version) := by
        rw [hverMid]
        simp only [List.mem_append]
        rintro (hc | hc)
        · exact hb1 hc
        · exact hb2 hc
      simp [is_migration_applied, htblMid, hmem]

/-- Claim C5: after a successful apply_pending_migrations run, a second run
    (under any execution environment) applies zero migrations, returns the
    empty list and leaves the database state unchanged. -/
theorem apply_pending_migrations_idempotent (env env2 : SqlEnv) (s : DbState)
    (applied : List Migration) (s' : DbState)
    (h : apply_pending_migrations get_all_migrations env s =
      (Except.ok applied, s')) :
    apply_pending_migrations get_all_migrations env2 s' =
      (Except.ok [], s') := by
  have htbl1 : (create_migrations_table s).hasMigrationsTable = true :=
    create_migrations_table_table s
  simp only [apply_pending_migrations] at h
  split at h
  · rename_i hemp
    simp only [Prod.mk.injEq, Except.ok.injEq] at h
    obtain ⟨ha, hs⟩ := h
    simp only [apply_pending_migrations]
    rw [create_migrations_table_id s' (by rw [← hs]; exact htbl1)]
    rw [← hs]
    simp [hemp]
  · rename_i hemp
    have hpendne :
        (detect_database_version get_all_migrations
          (create_migrations_table s)).pending_migrations ≠ [] := by
      intro hnil
      exact hemp (by simp [hnil])
    have hcat : List.Pairwise (fun a b : Migration => a.version < b.version)
        get_all_migrations := by decide
    have hpw : List.Pairwise (fun a b : Migration => a.version < b.version)
        (detect_database_version get_all_migrations
          (create_migrations_table s)).pending_migrations :=
      hcat.sublist (pending_sublist get_all_migrations
        (create_migrations_table s))
    have hnodupPend :
        (((detect_database_version get_all_migrations
          (create_migrations_table s)).pending_migrations).map
            (fun m => m.version)).Nodup :=
      (List.pairwise_map.mpr hpw).imp (fun hlt => ne_of_lt hlt)
    have hfreshAll := pending_fresh get_all_migrations
      (create_migrations_table s) htbl1
    obtain ⟨htbl2, hver2⟩ := apply_migrations_loop_evolution env
      (detect_database_version get_all_migrations
        (create_migrations_table s)).pending_migrations
      (create_migrations_table s) applied s' h htbl1 hfreshAll hnodupPend
    have hpermS1 := (get_applied_perm (create_migrations_table s)
      htbl1).map (fun a => a.version)
    have hpermS2 := (get_applied_perm s' htbl2).map (fun a => a.version)
    simp only [apply_pending_migrations]
    rw [create_migrations_table_id s' htbl2]
    suffices hpe : (detect_database_version get_all_migrations
        s').pending_migrations = [] by
      simp [hpe]
    rw [pending_eq_filter, List.filter_eq_nil_iff]
    intro m hm hpred
    simp only [Bool.and_eq_true, Bool.not_eq_true',
      decide_eq_true_eq] at hpred
    obtain ⟨hnc, hgt⟩ := hpred
    have hnotmem : m.version ∉ s'.rows.map (fun r => r.version) := by
      intro hmem
      have hmem2 : m.version ∈
          (get_applied_migrations s').map (fun a => a.version) :=
        hpermS2.mem_iff.mpr hmem
      have : ((get_applied_migrations s').map
          (fun a => a.version)).contains m.version = true := by
        simpa using hmem2
      rw [this] at hnc
      exact Bool.noConfusion hnc
    rw [hver2] at hnotmem
    simp only [List.mem_append] at hnotmem
    push_neg at hnotmem
    obtain ⟨hnot1, hnotP⟩ := hnotmem
    have hpendVne : ((detect_database_version get_all_migrations
        (create_migrations_table s)).pending_migrations).map
          (fun m => m.version) ≠ [] := by
      simpa using hpendne
    have hrowsne : s'.rows.map (fun r => r.version) ≠ [] := by
      rw [hver2]
      simp [hpendVne]
    have happV2ne : (get_applied_migrations s').map (fun a => a.version)
        ≠ [] := by
      intro hnil
      apply hrowsne
      have hp := hpermS2
      rw [hnil] at hp
      have hlen := hp.length_eq
      simp only [List.length_nil] at hlen
      exact List.eq_nil_of_length_eq_zero hlen.symm
    have hgapp_ne : get_applied_migrations s' ≠ [] := by
      intro hnil
      apply happV2ne
      rw [hnil]
      rfl
    have hie2 : (get_applied_migrations s').isEmpty = false := by
      cases hgl : get_applied_migrations s' with
      | nil => exact absurd hgl hgapp_ne
      | cons a as => rfl
    have hcur2eq : get_current_version s' =
        (((get_applied_migrations s').map (fun a => a.version)).max?).getD
          0 := by
      simp [get_current_version, hie2]
    have hspec2 := max?_getD_spec _ happV2ne
    by_cases hcur : get_current_version (create_migrations_table s) <
        m.version
    · have hmp : m ∈ (detect_database_version get_all_migrations
          (create_migrations_table s)).pending_migrations := by
        refine (mem_pending_iff _ _ m).mpr ⟨hm, ?_, hcur⟩
        intro hmem
        exact hnot1 (hpermS1.mem_iff.mp hmem)
      exact hnotP (List.mem_map_of_mem (fun x => x.version) hmp)
    · push_neg at hcur
      by_cases h1e : get_applied_migrations (create_migrations_table s) = []
      · obtain ⟨m0, hm0⟩ := List.exists_mem_of_ne_nil _ hpendne
        have hm0p := (mem_pending_iff _ _ m0).mp hm0
        have hm0mem : m0.version ∈
            (get_applied_migrations s').map (fun a => a.version) := by
          apply hpermS2.mem_iff.mpr
          rw [hver2]
          exact List.mem_append_right _
            (List.mem_map_of_mem (fun x => x.version) hm0)
        have hle : m0.version ≤ get_current_version s' := by
          rw [hcur2eq]
          exact hspec2.2 _ hm0mem
        have hlt0 := hm0p.2.2
        omega
      · have happ1Vne : (get_applied_migrations
            (create_migrations_table s)).map (fun a => a.version) ≠ [] := by
          simpa using h1e
        have hie1 : (get_applied_migrations
            (create_migrations_table s)).isEmpty = false := by
          cases hgl : get_applied_migrations (create_migrations_table s) with
          | nil => exact absurd hgl h1e
          | cons a as => rfl
        have hcur1eq : get_current_version (create_migrations_table s) =
            (((get_applied_migrations (create_migrations_table s)).map
              (fun a => a.version)).max?).getD 0 := by
          simp [get_current_version, hie1]
        have hspec1 := max?_getD_spec _ happ1Vne
        have hc1mem : get_current_version (create_migrations_table s) ∈
            (get_applied_migrations (create_migrations_table s)).map
              (fun a => a.version) := by
          rw [hcur1eq]
          exact hspec1.1
        have hc1mem2 : get_current_version (create_migrations_table s) ∈
            (get_applied_migrations s').map (fun a => a.version) := by
          apply hpermS2.mem_iff.mpr
          rw [hver2]
          exact List.mem_append_left _ (hpermS1.mem_iff.mp hc1mem)
        have hle : get_current_version (create_migrations_table s) ≤
            get_current_version s' := by
          rw [hcur2eq]
          exact hspec2.2 _ hc1mem2
        omega

/-- Execution environment in which every migration's SQL succeeds and leaves
    the legacy-tables flag as it was. -/
def envOkW : SqlEnv :=
  { exec := fun _ l => some l
    now := "2026-01-01 00:00:00"
    execTimeMs := 5 }

/-- Execution environment in which the SQL of migration v2 is rejected by the
    engine (e.g. a syntax error) and every other migration succeeds. -/
def envFailV2 : SqlEnv :=
  { exec := fun m l => if m.version = 2 then none else some l
    now := "2026-01-01 00:00:00"
    execTimeMs := 5 }

/-- A fresh, empty database: no tracking table, no rows, no legacy tables. -/
def sEmptyDb : DbState :=
  { hasMigrationsTable := false
    rows := []
    hasLegacyTables := false
    nextId := 1 }

/-- The database state reached from sEmptyDb after v1 succeeded and v2
    failed under envFailV2. -/
def sAfterV1 : DbState :=
  { hasMigrationsTable := true
    rows :=
      [ { id := 1, version := 1, name := "v001_initial_schema",
          description := some "Initial database schema with core tables",
          checksum := "initial_schema_v1",
          applied_at := "2026-01-01 00:00:00",
          execution_time_ms := some 5 } ]
    hasLegacyTables := false
    nextId := 2 }

/-- The database state reached from sEmptyDb after all three catalog
    migrations succeeded under envOkW. -/
def sAfterAll : DbState :=
  { hasMigrationsTable := true
    rows :=
      [ { id := 1, version := 1, name := "v001_initial_schema",
          description := some "Initial database schema with core tables",
          checksum := "initial_schema_v1",
          applied_at := "2026-01-01 00:00:00",
          execution_time_ms := some 5 },
        { id := 2, version := 2, name := "v002_gst_fixes",
          description := some "GST calculation improvements and fixes",
          checksum := "gst_fixes_v2",
          applied_at := "2026-01-01 00:00:00",
          execution_time_ms := some 5 },
        { id := 3, version := 3, name := "v003_email_config",
          description := some "Email configuration for automatic backups",
          checksum := "email_config_v3",
          applied_at := "2026-01-01 00:00:00",
          execution_time_ms := some 5 } ]
    hasLegacyTables := false
    nextId := 4 }

/-- Counterexample to claim C1 as stated: at this concrete input the call
    propagates the failure of migration v2 as an error value — it does not
    return the list of migrations that succeeded before the failure — even
    though migration v1 succeeded first and remains recorded in the tracking
    table (and v2 does not). -/
theorem apply_pending_migrations_prefix_not_returned :
    (apply_pending_migrations get_all_migrations envFailV2 sEmptyDb).1 =
      Except.error (MigError.execFailed 2 "v002_gst_fixes") ∧
    is_migration_applied
      (apply_pending_migrations get_all_migrations envFailV2 sEmptyDb).2 1 =
      true ∧
    is_migration_applied
      (apply_pending_migrations get_all_migrations envFailV2 sEmptyDb).2 2 =
      false :=
  ⟨rfl, rfl, rfl⟩

/-- Witness for claim C1 at a concrete run: from the empty database, with v2
    failing, the pending list splits into a recorded prefix and an
    unrecorded failing migration plus suffix. -/
theorem apply_pending_migrations_failure_spec_witness :
    ∃ p mfail suf,
      pendingOf get_all_migrations sEmptyDb = p ++ mfail :: suf ∧
      apply_migration envFailV2 mfail sAfterV1 =
        (Except.error (MigError.execFailed 2 "v002_gst_fixes"), sAfterV1) ∧
      (∀ a ∈ p, is_migration_applied sAfterV1 a.version = true) ∧
      (∀ b ∈ mfail :: suf,
        is_migration_applied sAfterV1 b.version = false) :=
  (apply_pending_migrations_failure_spec envFailV2 sEmptyDb).2
    (MigError.execFailed 2 "v002_gst_fixes") sAfterV1 (by rfl)

/-- Witness for claim C5 at a concrete run: after applying the full catalog
    to the empty database, a second run applies nothing. -/
theorem apply_pending_migrations_idempotent_witness :
    apply_pending_migrations get_all_migrations envOkW sAfterAll =
      (Except.ok [], sAfterAll) :=
  apply_pending_migrations_idempotent envOkW envOkW sEmptyDb
    get_all_migrations sAfterAll (by rfl)

/-- File system holding only the live database file. -/
def fsLive : FileSys :=
  { files := [("data/com.uclean.app/database.sqlite", "live")] }

/-- fsLive after the pre-migration startup backup of the frozen second. -/
def fsLiveAfter : FileSys :=
  { files :=
      [ ("data/com.uclean.app/database.sqlite", "live"),
        ("data/UCLEAN/backups/pre_migration_startup_20260101_000000.sqlite",
          "live") ] }

/-- The check result produced at sEmptyDb (upgrade required) with the
    startup trigger under benvW. -/
def mcrW : MigrationCheckResult :=
  { trigger := MigrationTrigger.AppStartup
    status := check_migration_status get_all_migrations sEmptyDb
    backup_created :=
      some "data/UCLEAN/backups/pre_migration_startup_20260101_000000.sqlite" }

/-- Witness for claim C2 at a concrete upgrade-requiring state: the result
    carries the trigger, the detected status and the created backup's path;
    the database state is untouched. -/
theorem check_and_prepare_backup_iff_witness :
    sEmptyDb = sEmptyDb ∧
    mcrW.trigger = MigrationTrigger.AppStartup ∧
    mcrW.status = check_migration_status get_all_migrations sEmptyDb ∧
    mcrW.backup_created.isSome =
      isRequiresUpgrade (check_migration_status get_all_migrations
        sEmptyDb) ∧
    (∀ p, mcrW.backup_created = some p →
      create_pre_migration_backup benvW MigrationTrigger.AppStartup fsLive =
        (Except.ok p, fsLiveAfter)) :=
  check_and_prepare_backup_iff benvW MigrationTrigger.AppStartup sEmptyDb
    fsLive mcrW sEmptyDb fsLiveAfter (by rfl)

/-- Witness for claim C8 at a concrete run: the status attached to a
    successful check result is Current or RequiresUpgrade. -/
theorem check_migration_status_variants_witness :
    (∃ v, mcrW.status = MigrationStatus.Current v) ∨
    (∃ cv rv pend,
      mcrW.status = MigrationStatus.RequiresUpgrade cv rv pend) :=
  check_migration_status_variants.2 benvW MigrationTrigger.AppStartup
    sEmptyDb fsLive mcrW sEmptyDb fsLiveAfter (by rfl)

/-- Backup environment without a platform data directory: every backup
    attempt fails. -/
def benvNoDir : BackupEnv :=
  { dataDir := none, nowStamp := "20260101_000000" }

/-- Witness for claim C9 at a concrete input: with the data directory
    unavailable the pre-migration backup fails and check_and_prepare fails
    closed with the backup's error, touching neither database nor files. -/
theorem check_and_prepare_backup_failure_witness :
    check_and_prepare_migration benvNoDir MigrationTrigger.AppStartup
      sEmptyDb fsLive =
      (Except.error "Failed to get app data directory",
        (sEmptyDb, fsLive)) :=
  check_and_prepare_backup_failure benvNoDir MigrationTrigger.AppStartup
    sEmptyDb fsLive "Failed to get app data directory" fsLive (by rfl)
    (by rfl)

/-- File system with the live database and one backup, the safety path of
    the frozen second unoccupied. -/
def fsNoCollision : FileSys :=
  { files :=
      [ ("data/com.uclean.app/database.sqlite", "live"),
        ("data/UCLEAN/backups/b1.sqlite", "old") ] }

/-- Witness for claim C6 at a concrete input: restoring b1 adds exactly the
    safety backup (holding the pre-restore live content) and overwrites the
    live file with the backup's content. -/
theorem restore_backup_safety_spec_witness :
    ∃ fs' : FileSys,
      restore_backup benvW "data/UCLEAN/backups/b1.sqlite" fsNoCollision =
        (Except.ok (), fs') ∧
      fs'.files.length = fsNoCollision.files.length + 1 ∧
      fs'.read (backup_dir benvW ++ "/" ++ "safety_before_restore" ++ "_" ++
        benvW.nowStamp ++ ".sqlite") = some "live" ∧
      fs'.read ("data" ++ "/com.uclean.app/database.sqlite") = some "old" :=
  restore_backup_safety_spec benvW fsNoCollision
    "data/UCLEAN/backups/b1.sqlite" "data" "live" "old" (by rfl) (by rfl)
    (by rfl) (by rfl)
